import Mathlib

/-!
Verification of the Time Tracking & Productivity Aggregation engine.

The definitions below are a shallow embedding of the TypeScript controllers:
* `startTimeTracking`, `stopTimeTracking`, `getTimeEntries` embed the
  time-tracking controller (`timeController`), with the Supabase queries
  modelled as pure operations over an explicit `Store` value;
* `getTaskStatistics`, `getTimeStatistics`, `getProductivityMetrics` embed
  `statisticsController.ts`;
* `attachDuration` embeds the `duration_ms` computation performed by the
  frontend (`TasksPage.tsx`, `fetchTimeEntries`) on the listed entries.

Timestamps are milliseconds since the epoch, as `Int` (JavaScript `Date`
arithmetic on these values is exact integer arithmetic in the ranges used).
Values produced by `/` in JavaScript are modelled as `ℚ`.
Columns that none of the verified operations read (title, description,
due date, created_at) are omitted from the row types.
-/

namespace TimeTrack

inductive TaskStatus where
  | pending
  | in_progress
  | completed
deriving DecidableEq

inductive TaskPriority where
  | low
  | medium
  | high
deriving DecidableEq

structure Task where
  id : Nat
  user_id : Nat
  status : TaskStatus
  priority : TaskPriority
  updated_at : Int
deriving DecidableEq

structure TimeEntry where
  id : Nat
  task_id : Nat
  user_id : Nat
  start_time : Int
  end_time : Option Int
deriving DecidableEq

/-- The relational store as seen through the row-filtered queries:
the `tasks` and `time_entries` tables, plus the id the next inserted
time-entry row receives. -/
structure Store where
  tasks : List Task
  entries : List TimeEntry
  nextId : Nat
deriving DecidableEq

/-- The rows returned by
`from('time_entries').eq('task_id',tid).eq('user_id',uid).is('end_time',null)`. -/
def openEntries (s : Store) (tid uid : Nat) : List TimeEntry :=
  s.entries.filter (fun e => decide (e.task_id = tid ∧ e.user_id = uid ∧ e.end_time = none))

/-- Supabase `.single()`: data when the result set has exactly one row,
otherwise `none` (the client reports an error and null data). -/
def singleRow {α : Type} (l : List α) : Option α :=
  match l with
  | [e] => some e
  | _ => none

/-- The `tasks` lookup shared by `startTimeTracking` and `getTimeEntries`:
`from('tasks').select('id').eq('id',tid).eq('user_id',uid).single()`. -/
def findOwnedTask (s : Store) (tid uid : Nat) : Option Task :=
  s.tasks.find? (fun t => decide (t.id = tid ∧ t.user_id = uid))

inductive CheckOutcome where
  | notFound
  | conflict
  | proceed
deriving DecidableEq

/-- The read-only first half of `startTimeTracking` (everything up to and
including the active-entry check, lines 11-36): one store round-trip for the
task, one for the open entry.  Note the code tests only `if (activeEntry)`,
so a `.single()` error (zero rows, or several) falls through to the insert. -/
def startCheckPhase (s : Store) (tid uid : Nat) : CheckOutcome :=
  match findOwnedTask s tid uid with
  | none => .notFound
  | some _ =>
    match singleRow (openEntries s tid uid) with
    | some _ => .conflict
    | none => .proceed

/-- The second half of `startTimeTracking`: the unconditional
`insert([{ task_id, user_id, start_time }])` (end_time defaults to null),
returning the inserted row.  This is a separate store round-trip from
`startCheckPhase`. -/
def startInsertPhase (s : Store) (tid uid : Nat) (nowMs : Int) : TimeEntry × Store :=
  let e : TimeEntry := { id := s.nextId, task_id := tid, user_id := uid,
                         start_time := nowMs, end_time := none }
  (e, { s with entries := s.entries ++ [e], nextId := s.nextId + 1 })

inductive StartOutcome where
  | notFound
  | conflict
  | ok (e : TimeEntry)
deriving DecidableEq

/-- `startTimeTracking` run to completion with no interleaved writer:
the check phase followed by the insert phase. -/
def startTimeTracking (s : Store) (tid uid : Nat) (nowMs : Int) : StartOutcome × Store :=
  match startCheckPhase s tid uid with
  | .notFound => (.notFound, s)
  | .conflict => (.conflict, s)
  | .proceed =>
    let (e, s') := startInsertPhase s tid uid nowMs
    (.ok e, s')

/-- The table after `update({ end_time }).eq('id', eid)`. -/
def closeEntryRows (entries : List TimeEntry) (eid : Nat) (nowMs : Int) : List TimeEntry :=
  entries.map (fun x => if x.id = eid then { x with end_time := some nowMs } else x)

inductive StopOutcome where
  | notFound
  | ok (e : TimeEntry)
  | storeFailure
deriving DecidableEq

/-- `stopTimeTracking`: find the open entry for the task/user pair
(404 when `.single()` yields no data), set its `end_time`, and return the
updated row selected back with `.single()` (a failed re-select is the
thrown-error/500 path). -/
def stopTimeTracking (s : Store) (tid uid : Nat) (nowMs : Int) : StopOutcome × Store :=
  match singleRow (openEntries s tid uid) with
  | none => (.notFound, s)
  | some e =>
    let newEntries := closeEntryRows s.entries e.id nowMs
    match singleRow (newEntries.filter (fun x => decide (x.id = e.id))) with
    | some e2 => (.ok e2, { s with entries := newEntries })
    | none => (.storeFailure, { s with entries := newEntries })

/-- `end_time − start_time` in milliseconds; `new Date(null)` is the epoch,
so a null `end_time` reads as 0 (the aggregators only apply this to rows
already filtered to non-null `end_time`). -/
def entryEndMs (e : TimeEntry) : Int :=
  match e.end_time with
  | some t => t
  | none => 0

def entryDurationMs (e : TimeEntry) : Int :=
  entryEndMs e - e.start_time

/-- Ordering requested from the store by
`.order('start_time', { ascending: false })`. -/
def byStartDesc (a b : TimeEntry) : Prop :=
  b.start_time ≤ a.start_time

instance : DecidableRel byStartDesc :=
  fun a b => inferInstanceAs (Decidable (b.start_time ≤ a.start_time))

instance : IsTotal TimeEntry byStartDesc :=
  ⟨fun a b => le_total b.start_time a.start_time⟩

instance : IsTrans TimeEntry byStartDesc :=
  ⟨fun _ _ _ h1 h2 => le_trans h2 h1⟩

/-- `getTimeEntries`: 404 when the task is not owned by the caller, else all
entries for the task/user pair ordered by `start_time` descending. -/
def getTimeEntries (s : Store) (tid uid : Nat) : Option (List TimeEntry) :=
  match findOwnedTask s tid uid with
  | none => none
  | some _ =>
    some (List.insertionSort byStartDesc
      (s.entries.filter (fun e => decide (e.task_id = tid ∧ e.user_id = uid))))

/-- A listed entry as the frontend exposes it: the raw row plus the
computed `duration_ms`. -/
structure TimeEntryView where
  id : Nat
  task_id : Nat
  user_id : Nat
  start_time : Int
  end_time : Option Int
  duration_ms : Option Int
deriving DecidableEq

/-- The per-entry map in the frontend `fetchTimeEntries`: a closed entry gets
`end − start`, an open entry gets `Date.now() − start`. -/
def attachDuration (nowMs : Int) (e : TimeEntry) : TimeEntryView :=
  match e.end_time with
  | some te =>
    { id := e.id, task_id := e.task_id, user_id := e.user_id,
      start_time := e.start_time, end_time := e.end_time,
      duration_ms := some (te - e.start_time) }
  | none =>
    { id := e.id, task_id := e.task_id, user_id := e.user_id,
      start_time := e.start_time, end_time := e.end_time,
      duration_ms := some (nowMs - e.start_time) }

/-- The listing as exposed to the user: the backend `getTimeEntries` response
with `duration_ms` attached by the frontend. -/
def fetchTimeEntries (s : Store) (tid uid : Nat) (nowMs : Int) :
    Option (List TimeEntryView) :=
  (getTimeEntries s tid uid).map (fun l => l.map (attachDuration nowMs))

structure PriorityCounts where
  high : Nat
  medium : Nat
  low : Nat
deriving DecidableEq

structure PriorityRates where
  high : ℚ
  medium : ℚ
  low : ℚ
deriving DecidableEq

structure TaskStatisticsR where
  total_tasks : Nat
  completed_tasks : Nat
  in_progress_tasks : Nat
  pending_tasks : Nat
  completion_rate : ℚ
  tasks_by_priority : PriorityCounts
  completion_rate_by_priority : PriorityRates
deriving DecidableEq

/-- `getTaskStatistics` over the fetched task rows (the user/window filters
are part of the store query; the input is the fetched window).  Rates follow
the code exactly: `total > 0 ? (completed / total) * 100 : 0`. -/
def getTaskStatistics (tasks : List Task) : TaskStatisticsR :=
  let totalTasks := tasks.length
  let completedTasks := (tasks.filter (fun t => decide (t.status = .completed))).length
  let inProgressTasks := (tasks.filter (fun t => decide (t.status = .in_progress))).length
  let pendingTasks := (tasks.filter (fun t => decide (t.status = .pending))).length
  let completionRate : ℚ :=
    if 0 < totalTasks then ((completedTasks : ℚ) / (totalTasks : ℚ)) * 100 else 0
  let highCount := (tasks.filter (fun t => decide (t.priority = .high))).length
  let mediumCount := (tasks.filter (fun t => decide (t.priority = .medium))).length
  let lowCount := (tasks.filter (fun t => decide (t.priority = .low))).length
  let highDone :=
    (tasks.filter (fun t => decide (t.priority = .high ∧ t.status = .completed))).length
  let mediumDone :=
    (tasks.filter (fun t => decide (t.priority = .medium ∧ t.status = .completed))).length
  let lowDone :=
    (tasks.filter (fun t => decide (t.priority = .low ∧ t.status = .completed))).length
  { total_tasks := totalTasks
    completed_tasks := completedTasks
    in_progress_tasks := inProgressTasks
    pending_tasks := pendingTasks
    completion_rate := completionRate
    tasks_by_priority := { high := highCount, medium := mediumCount, low := lowCount }
    completion_rate_by_priority :=
      { high := if 0 < highCount then ((highDone : ℚ) / (highCount : ℚ)) * 100 else 0
        medium := if 0 < mediumCount then ((mediumDone : ℚ) / (mediumCount : ℚ)) * 100 else 0
        low := if 0 < lowCount then ((lowDone : ℚ) / (lowCount : ℚ)) * 100 else 0 } }

/-- The `.not('end_time', 'is', null)` filter of the time-statistics and
time-report queries. -/
def isClosed (e : TimeEntry) : Bool :=
  decide (e.end_time ≠ none)

structure TimeStatisticsR where
  total_time_ms : Int
  average_time_per_task_ms : ℚ
deriving DecidableEq

/-- `getTimeStatistics` over the fetched entry rows: the query keeps only
closed entries, `total_time_ms` is the `reduce` of the per-entry durations,
and the average divides by the number of distinct task ids (`new Set`),
guarded to 0 when there are none.  The by-priority and by-weekday buckets of
the response are not needed by any verified property and are omitted. -/
def getTimeStatistics (entries : List TimeEntry) : TimeStatisticsR :=
  let closed := entries.filter isClosed
  let totalTimeMs := closed.foldl (fun acc e => acc + entryDurationMs e) 0
  let uniqueTasks := (closed.map (fun e => e.task_id)).dedup
  { total_time_ms := totalTimeMs
    average_time_per_task_ms :=
      if 0 < uniqueTasks.length then (totalTimeMs : ℚ) / (uniqueTasks.length : ℚ) else 0 }

def msPerDay : Int := 86400000

/-- `toLocaleDateString()` groups a timestamp by its calendar date; a date is
modelled by its day index, and `new Date(dateString).getTime()` on such a
date is `day * msPerDay` (local midnight). -/
def dayOfMs (ms : Int) : Int :=
  ms.fdiv msPerDay

/-- One step of the `tasksPerDay` reduce: `acc[day] = (acc[day] || 0) + 1`,
keyed in first-insertion order as a JavaScript object is. -/
def bumpDay : List (Int × Nat) → Int → List (Int × Nat)
  | [], d => [(d, 1)]
  | (k, n) :: rest, d =>
    if k = d then (k, n + 1) :: rest else (k, n) :: bumpDay rest d

def tasksPerDayOf (completed : List Task) : List (Int × Nat) :=
  completed.foldl (fun acc t => bumpDay acc (dayOfMs t.updated_at)) []

/-- `status === 'completed'` filter of the productivity query. -/
def completedOf (tasks : List Task) : List Task :=
  tasks.filter (fun t => decide (t.status = .completed))

/-- `Object.keys(tasksPerDay).map(new Date).sort(ascending)`. -/
def sortedDatesOf (completed : List Task) : List Int :=
  List.insertionSort (fun a b => a ≤ b) ((tasksPerDayOf completed).map Prod.fst)

/-- The streak `for` loop from index 1 on: `diffDays` between consecutive
date midnights, `tempStreak` incremented on a one-day gap and reset to 1
otherwise, `longestStreak` updated with `Math.max` on every such step.
Returns `(longestStreak, tempStreak)`. -/
def streakWalkGo (prev : Int) (ds : List Int) (temp longest : Nat) : Nat × Nat :=
  match ds with
  | [] => (longest, temp)
  | d :: rest =>
    let diffDays := (d * msPerDay - prev * msPerDay).fdiv msPerDay
    let temp2 := if diffDays = 1 then temp + 1 else 1
    streakWalkGo d rest temp2 (Nat.max longest temp2)

/-- The whole streak loop: the `i = 0` iteration sets `tempStreak = 1` and
`continue`s past the `longestStreak` update. -/
def streakWalk (dates : List Int) : Nat × Nat :=
  match dates with
  | [] => (0, 0)
  | d :: rest => streakWalkGo d rest 1 0

structure ProductivityMetricsR where
  total_completed_tasks : Nat
  tasks_per_day : List (Int × Nat)
  average_tasks_per_day : ℚ
  current_streak : Nat
  longest_streak : Nat
deriving DecidableEq

/-- `getProductivityMetrics` over the fetched completed-task rows.
`none` is the thrown-TypeError/500 path: with no dates,
`dates[dates.length - 1]` is `undefined` and `lastDate.getTime()` throws
before the response is built. -/
def getProductivityMetrics (tasks : List Task) (nowMs : Int) :
    Option ProductivityMetricsR :=
  let completed := completedOf tasks
  let perDay := tasksPerDayOf completed
  let avg : ℚ :=
    if 0 < perDay.length then (completed.length : ℚ) / (perDay.length : ℚ) else 0
  let dates := sortedDatesOf completed
  match dates.getLast? with
  | none => none
  | some lastDay =>
    let (longest, temp) := streakWalk dates
    let diffDays := (nowMs - lastDay * msPerDay).fdiv msPerDay
    some { total_completed_tasks := completed.length
           tasks_per_day := perDay
           average_tasks_per_day := avg
           current_streak := if diffDays ≤ 1 then temp else 0
           longest_streak := longest }

/-! Concrete rows and stores used by the closed theorems and witnesses. -/

def raceStore : Store :=
  { tasks := [{ id := 1, user_id := 1, status := .pending, priority := .low, updated_at := 0 }]
    entries := []
    nextId := 1 }

def oneDayTask : Task :=
  { id := 1, user_id := 1, status := .completed, priority := .medium, updated_at := 0 }

def onePendingTask : Task :=
  { id := 1, user_id := 1, status := .pending, priority := .low, updated_at := 0 }

def oneHighTask : Task :=
  { id := 1, user_id := 1, status := .completed, priority := .high, updated_at := 0 }

def listStore : Store :=
  { tasks := [onePendingTask]
    entries := [{ id := 1, task_id := 1, user_id := 1, start_time := 0, end_time := some 10 },
                { id := 2, task_id := 1, user_id := 1, start_time := 5, end_time := none }]
    nextId := 3 }

def listedViews : List TimeEntryView :=
  [{ id := 2, task_id := 1, user_id := 1, start_time := 5, end_time := none,
     duration_ms := some 95 },
   { id := 1, task_id := 1, user_id := 1, start_time := 0, end_time := some 10,
     duration_ms := some 10 }]

def stopStore : Store :=
  { tasks := [onePendingTask]
    entries := [{ id := 5, task_id := 1, user_id := 1, start_time := 3, end_time := none }]
    nextId := 6 }

def closedStopEntry : TimeEntry :=
  { id := 5, task_id := 1, user_id := 1, start_time := 3, end_time := some 9 }

def stopStoreAfter : Store :=
  { tasks := [onePendingTask], entries := [closedStopEntry], nextId := 6 }

/-! Helper lemmas. -/

/-- A percentage of the form `0 < t ? (c / t) * 100 : 0` with `c ≤ t` lies
in `[0, 100]`. -/
lemma ratePct_mem (c t : Nat) (h : c ≤ t) :
    0 ≤ (if 0 < t then ((c : ℚ) / (t : ℚ)) * 100 else 0) ∧
      (if 0 < t then ((c : ℚ) / (t : ℚ)) * 100 else 0) ≤ 100 := by
  by_cases ht : 0 < t
  · simp only [if_pos ht]
    have ht' : (0 : ℚ) < (t : ℚ) := by exact_mod_cast ht
    have hc : (c : ℚ) ≤ (t : ℚ) := by exact_mod_cast h
    have hdiv : (c : ℚ) / (t : ℚ) ≤ 1 := (div_le_one ht').mpr hc
    constructor
    · positivity
    · nlinarith
  · simp [if_neg ht]

/-- Filtering on a conjunction keeps no more rows than filtering on its
first conjunct. -/
lemma length_filter_and_le (l : List Task) (p q : Task → Prop)
    [DecidablePred p] [DecidablePred q] :
    (l.filter (fun a => decide (p a ∧ q a))).length ≤
      (l.filter (fun a => decide (p a))).length := by
  refine List.Sublist.length_le (List.monotone_filter_right l ?_)
  intro a h
  simp only [decide_eq_true_eq] at h ⊢
  exact h.1

lemma singleRow_eq_some_iff {α : Type} (l : List α) (a : α) :
    singleRow l = some a ↔ l = [a] := by
  match l with
  | [] => simp [singleRow]
  | [x] => simp [singleRow]
  | x :: y :: rest => simp [singleRow]

lemma singleRow_eq_none_iff_of_short {α : Type} (l : List α) (h : l.length ≤ 1) :
    singleRow l = none ↔ l = [] := by
  match l with
  | [] => simp [singleRow]
  | [x] => simp [singleRow]
  | x :: y :: rest => simp at h

lemma mem_openEntries_iff (s : Store) (tid uid : Nat) (e : TimeEntry) :
    e ∈ openEntries s tid uid ↔
      e ∈ s.entries ∧ e.task_id = tid ∧ e.user_id = uid ∧ e.end_time = none := by
  simp [openEntries, List.mem_filter]

/-- Restricting the updated table to the updated id is the update applied to
the matching rows of the old table. -/
lemma closeEntryRows_filter (entries : List TimeEntry) (eid : Nat) (nowMs : Int) :
    (closeEntryRows entries eid nowMs).filter (fun x => decide (x.id = eid)) =
      (entries.filter (fun x => decide (x.id = eid))).map
        (fun x => { x with end_time := some nowMs }) := by
  induction entries with
  | nil => rfl
  | cons a l ih =>
    by_cases h : a.id = eid
    · simp [closeEntryRows, List.filter_cons, h] at ih ⊢
      exact ih
    · simp [closeEntryRows, List.filter_cons, h] at ih ⊢
      exact ih

/-- With pairwise-distinct ids, filtering on a member's id yields exactly
that member. -/
lemma filter_id_eq_singleton (entries : List TimeEntry) (e : TimeEntry)
    (hid : entries.Pairwise (fun a b => a.id ≠ b.id)) (he : e ∈ entries) :
    entries.filter (fun x => decide (x.id = e.id)) = [e] := by
  induction entries with
  | nil => cases he
  | cons a l ih =>
    rcases List.pairwise_cons.mp hid with ⟨hhead, htail⟩
    rcases List.mem_cons.mp he with rfl | hm
    · have hnone : ∀ x ∈ l, ¬ x.id = e.id := fun x hx hq2 => hhead x hx hq2.symm
      have hnil : List.filter (fun x => decide (x.id = e.id)) l = [] := by
        rw [List.filter_eq_nil_iff]
        intro a ha
        simpa using hnone a ha
      simp [List.filter_cons, hnil]
    · have hne : ¬ a.id = e.id := hhead e hm
      simp [List.filter_cons, hne, ih htail hm]

/-- A successful open-entry lookup makes `stopTimeTracking` close exactly
that entry and return it, provided the table has pairwise-distinct ids. -/
lemma stop_ok_of_singleRow (s : Store) (tid uid : Nat) (nowMs : Int) (e : TimeEntry)
    (hid : s.entries.Pairwise (fun a b => a.id ≠ b.id))
    (hs : singleRow (openEntries s tid uid) = some e) :
    stopTimeTracking s tid uid nowMs =
      (.ok { e with end_time := some nowMs },
       { s with entries := closeEntryRows s.entries e.id nowMs }) := by
  have hmem : e ∈ s.entries := by
    have := (singleRow_eq_some_iff _ _).mp hs
    have hme : e ∈ openEntries s tid uid := by simp [this]
    exact ((mem_openEntries_iff s tid uid e).mp hme).1
  have hfil :
      (closeEntryRows s.entries e.id nowMs).filter (fun x => decide (x.id = e.id)) =
        [{ e with end_time := some nowMs }] := by
    rw [closeEntryRows_filter, filter_id_eq_singleton s.entries e hid hmem]
    rfl
  simp only [stopTimeTracking, hs, hfil]
  rfl

lemma foldl_add_eq_sum {α : Type} (f : α → Int) (l : List α) (x : Int) :
    l.foldl (fun acc e => acc + f e) x = x + (l.map f).sum := by
  induction l generalizing x with
  | nil => simp
  | cons a l ih =>
    simp [ih, add_assoc]

lemma findOwnedTask_eq_none_iff (s : Store) (tid uid : Nat) :
    findOwnedTask s tid uid = none ↔
      ∀ t ∈ s.tasks, ¬ (t.id = tid ∧ t.user_id = uid) := by
  simp [findOwnedTask, List.find?_eq_none]

lemma openEntries_eq_nil_iff (s : Store) (tid uid : Nat) :
    openEntries s tid uid = [] ↔
      ∀ e ∈ s.entries, ¬ (e.task_id = tid ∧ e.user_id = uid ∧ e.end_time = none) := by
  simp [openEntries, List.filter_eq_nil_iff]

lemma openEntries_singleton (s : Store) (tid uid : Nat)
    (hopen : (openEntries s tid uid).length ≤ 1)
    (hne : openEntries s tid uid ≠ []) :
    ∃ x, openEntries s tid uid = [x] := by
  cases hl : openEntries s tid uid with
  | nil => exact absurd hl hne
  | cons a l =>
    cases l with
    | nil => exact ⟨a, rfl⟩
    | cons b m =>
      rw [hl] at hopen
      simp at hopen

/-- Updating an id no row carries leaves the table unchanged. -/
lemma closeEntryRows_of_fresh (entries : List TimeEntry) (eid : Nat) (nowMs : Int)
    (h : ∀ e ∈ entries, e.id ≠ eid) :
    closeEntryRows entries eid nowMs = entries := by
  unfold closeEntryRows
  have : entries.map (fun x => if x.id = eid then { x with end_time := some nowMs } else x) =
      entries.map id := by
    apply List.map_congr_left
    intro a ha
    simp [h a ha]
  rw [this, List.map_id]

lemma bumpDay_ne_nil (acc : List (Int × Nat)) (d : Int) : bumpDay acc d ≠ [] := by
  cases acc with
  | nil => simp [bumpDay]
  | cons p rest =>
    cases p with
    | mk k n =>
      by_cases h : k = d <;> simp [bumpDay, h]

lemma tasksPerDayOf_ne_nil (completed : List Task) (h : completed ≠ []) :
    tasksPerDayOf completed ≠ [] := by
  suffices H : ∀ (l : List Task) (acc : List (Int × Nat)), acc ≠ [] →
      l.foldl (fun acc t => bumpDay acc (dayOfMs t.updated_at)) acc ≠ [] by
    cases completed with
    | nil => exact absurd rfl h
    | cons c cs =>
      unfold tasksPerDayOf
      rw [List.foldl_cons]
      exact H cs _ (bumpDay_ne_nil [] _)
  intro l
  induction l with
  | nil =>
    intro acc hacc
    simpa using hacc
  | cons a l ih =>
    intro acc hacc
    rw [List.foldl_cons]
    exact ih _ (bumpDay_ne_nil acc _)

lemma sortedDatesOf_ne_nil (completed : List Task) (h : completed ≠ []) :
    sortedDatesOf completed ≠ [] := by
  intro hnil
  have hlen := (List.perm_insertionSort (fun a b : Int => a ≤ b)
    ((tasksPerDayOf completed).map Prod.fst)).length_eq
  rw [sortedDatesOf] at hnil
  rw [hnil] at hlen
  simp only [List.length_nil, List.length_map] at hlen
  exact tasksPerDayOf_ne_nil completed h (List.length_eq_zero.mp hlen.symm)

lemma streakWalkGo_snd_pos (ds : List Int) :
    ∀ (prev : Int) (temp longest : Nat), 1 ≤ temp →
      1 ≤ (streakWalkGo prev ds temp longest).2 := by
  induction ds with
  | nil =>
    intro prev temp longest h
    simpa [streakWalkGo] using h
  | cons d rest ih =>
    intro prev temp longest h
    rw [streakWalkGo]
    apply ih
    by_cases hd : (d * msPerDay - prev * msPerDay).fdiv msPerDay = 1 <;> simp [hd]

lemma streakWalk_snd_pos (dates : List Int) (h : dates ≠ []) :
    1 ≤ (streakWalk dates).2 := by
  cases dates with
  | nil => exact absurd rfl h
  | cons d rest => exact streakWalkGo_snd_pos rest d 1 0 le_rfl

lemma fdiv_sub_day (a b : Int) :
    (a - b * msPerDay).fdiv msPerDay = a.fdiv msPerDay - b := by
  have hpos : (0 : Int) ≤ msPerDay := by norm_num [msPerDay]
  have hne : (msPerDay : Int) ≠ 0 := by norm_num [msPerDay]
  rw [Int.fdiv_eq_ediv _ hpos, Int.fdiv_eq_ediv _ hpos, sub_eq_add_neg, ← neg_mul,
    Int.add_mul_ediv_right _ _ hne, sub_eq_add_neg]

/-! Claim theorems. -/

/-- C1: the open-entry check and the insert of `startTimeTracking` are two
separate store operations, not one atomic conditional write.  Interleaving
two concurrent `start` calls on the same task — both checks read the store
before either insert commits — makes both calls pass the check, and the
final store holds two TimeEntry rows for task 1 with `end_time = null`,
violating the claimed invariant. -/
theorem start_race_two_open_entries :
    startCheckPhase raceStore 1 1 = .proceed ∧
    (openEntries
      (startInsertPhase (startInsertPhase raceStore 1 1 10).2 1 1 20).2 1 1).length = 2 := by
  decide

/-- C4: on an empty input (no completed tasks in the window) the
productivity computation does not return all-zero metrics: it reaches
`dates[dates.length - 1]` with an empty `dates` array, and
`lastDate.getTime()` throws, surfacing as the 500 error path (`none`). -/
theorem productivity_empty_input_throws :
    getProductivityMetrics [] 0 = none ∧
    getProductivityMetrics [onePendingTask] 0 = none := by
  decide

/-- C5: with a single distinct completion date the code reports
`longest_streak = 0` (the `continue` at `i = 0` skips the `Math.max`
update), not 1 as the claim requires — while `current_streak` is 1. -/
theorem single_day_longest_streak_zero :
    (getProductivityMetrics [oneDayTask] 0).map
        (fun m => (m.longest_streak, m.current_streak, m.total_completed_tasks,
          m.tasks_per_day)) =
      some (0, 1, 1, [(0, 1)]) := by
  decide

/-- C7 counterexample: one completed high-priority task gives a completion
rate of 100, not a fraction in `[0, 1]`. -/
theorem completion_rate_exceeds_one :
    (getTaskStatistics [oneHighTask]).completion_rate = 100 ∧
    ¬ (getTaskStatistics [oneHighTask]).completion_rate ≤ 1 ∧
    (getTaskStatistics [oneHighTask]).completion_rate_by_priority.high = 100 := by
  refine ⟨?_, ?_, ?_⟩ <;> simp [getTaskStatistics, oneHighTask, List.filter]

/-- C7 amended: the completion rate and the per-priority completion rates
are percentages `(completed / total) * 100` lying in `[0, 100]`, and a
priority bucket with zero tasks has rate exactly 0. -/
theorem completion_rates_percent (tasks : List Task) :
    (0 ≤ (getTaskStatistics tasks).completion_rate ∧
      (getTaskStatistics tasks).completion_rate ≤ 100) ∧
    (0 ≤ (getTaskStatistics tasks).completion_rate_by_priority.high ∧
      (getTaskStatistics tasks).completion_rate_by_priority.high ≤ 100) ∧
    (0 ≤ (getTaskStatistics tasks).completion_rate_by_priority.medium ∧
      (getTaskStatistics tasks).completion_rate_by_priority.medium ≤ 100) ∧
    (0 ≤ (getTaskStatistics tasks).completion_rate_by_priority.low ∧
      (getTaskStatistics tasks).completion_rate_by_priority.low ≤ 100) ∧
    ((getTaskStatistics tasks).tasks_by_priority.high = 0 →
      (getTaskStatistics tasks).completion_rate_by_priority.high = 0) ∧
    ((getTaskStatistics tasks).tasks_by_priority.medium = 0 →
      (getTaskStatistics tasks).completion_rate_by_priority.medium = 0) ∧
    ((getTaskStatistics tasks).tasks_by_priority.low = 0 →
      (getTaskStatistics tasks).completion_rate_by_priority.low = 0) := by
  simp only [getTaskStatistics]
  refine ⟨?_, ?_, ?_, ?_, ?_, ?_, ?_⟩
  · exact ratePct_mem _ _ (List.length_filter_le _ _)
  · exact ratePct_mem _ _
      (length_filter_and_le tasks (fun t => t.priority = .high) (fun t => t.status = .completed))
  · exact ratePct_mem _ _
      (length_filter_and_le tasks (fun t => t.priority = .medium) (fun t => t.status = .completed))
  · exact ratePct_mem _ _
      (length_filter_and_le tasks (fun t => t.priority = .low) (fun t => t.status = .completed))
  · intro h
    simp [h]
  · intro h
    simp [h]
  · intro h
    simp [h]

/-- C8: the time-statistics computation uses only closed entries (open
entries are excluded from all totals), `total_time_ms` is the sum of the
per-entry durations `end_time − start_time`, and
`average_time_per_task_ms` divides the total by the number of distinct task
ids among those entries, 0 when there are none. -/
theorem time_statistics_closed_only (entries : List TimeEntry) :
    getTimeStatistics entries = getTimeStatistics (entries.filter isClosed) ∧
    (∀ e ∈ entries.filter isClosed, e.end_time ≠ none) ∧
    (getTimeStatistics entries).total_time_ms =
      ((entries.filter isClosed).map entryDurationMs).sum ∧
    (getTimeStatistics entries).average_time_per_task_ms =
      (if ((entries.filter isClosed).map (fun e => e.task_id)).dedup.length = 0 then 0
       else ((getTimeStatistics entries).total_time_ms : ℚ) /
         ((((entries.filter isClosed).map (fun e => e.task_id)).dedup.length : ℚ))) := by
  refine ⟨?_, ?_, ?_, ?_⟩
  · simp [getTimeStatistics, List.filter_filter]
  · intro e he
    have := (List.mem_filter.mp he).2
    simpa [isClosed] using this
  · simp [getTimeStatistics, foldl_add_eq_sum]
  · by_cases h : ((entries.filter isClosed).map (fun e => e.task_id)).dedup.length = 0
    · simp [getTimeStatistics, h]
    · have h2 : 0 < ((entries.filter isClosed).map (fun e => e.task_id)).dedup.length :=
        Nat.pos_of_ne_zero h
      simp [getTimeStatistics, h, h2]

/-- C10: a successful `stop` changes only the `end_time` of the matched open
entry: the returned entry keeps the id, task id, user id and start time of
the matched entry, and every stored row keeps its id, task id, user id and
start time. -/
theorem stop_frame_effect (s : Store) (tid uid : Nat) (nowMs : Int)
    (e2 : TimeEntry) (s2 : Store)
    (h : stopTimeTracking s tid uid nowMs = (.ok e2, s2)) :
    (∃ e, singleRow (openEntries s tid uid) = some e ∧
      e2.id = e.id ∧ e2.task_id = e.task_id ∧ e2.user_id = e.user_id ∧
      e2.start_time = e.start_time ∧ e2.end_time = some nowMs) ∧
    s2.entries.map (fun x => (x.id, x.task_id, x.user_id, x.start_time)) =
      s.entries.map (fun x => (x.id, x.task_id, x.user_id, x.start_time)) := by
  cases hs : singleRow (openEntries s tid uid) with
  | none =>
    simp only [stopTimeTracking, hs] at h
    simp at h
  | some e =>
    simp only [stopTimeTracking, hs] at h
    cases hr : singleRow
        ((closeEntryRows s.entries e.id nowMs).filter (fun x => decide (x.id = e.id))) with
    | none =>
      simp only [hr] at h
      simp at h
    | some x =>
      simp only [hr] at h
      have hx : x = e2 := by
        have := congrArg Prod.fst h
        simpa using this
      have hst : s2 = { s with entries := closeEntryRows s.entries e.id nowMs } := by
        have := congrArg Prod.snd h
        simpa using this.symm
      have hmem : e ∈ s.entries := by
        have hl := (singleRow_eq_some_iff _ _).mp hs
        have hme : e ∈ openEntries s tid uid := by simp [hl]
        exact ((mem_openEntries_iff s tid uid e).mp hme).1
      have hupd : ({ e with end_time := some nowMs } : TimeEntry) ∈
          (closeEntryRows s.entries e.id nowMs).filter (fun x => decide (x.id = e.id)) := by
        rw [List.mem_filter]
        constructor
        · have : ({ e with end_time := some nowMs } : TimeEntry) =
              (fun x => if x.id = e.id then { x with end_time := some nowMs } else x) e := by
            simp
          rw [this]
          exact List.mem_map_of_mem _ hmem
        · simp
      have hxe : ({ e with end_time := some nowMs } : TimeEntry) = x := by
        have hl := (singleRow_eq_some_iff _ _).mp hr
        rw [hl] at hupd
        simpa using hupd
      constructor
      · refine ⟨e, rfl, ?_, ?_, ?_, ?_, ?_⟩ <;> rw [← hx, ← hxe]
      · rw [hst]
        show (closeEntryRows s.entries e.id nowMs).map
            (fun x => (x.id, x.task_id, x.user_id, x.start_time)) =
          s.entries.map (fun x => (x.id, x.task_id, x.user_id, x.start_time))
        unfold closeEntryRows
        rw [List.map_map]
        apply List.map_congr_left
        intro a _
        by_cases ha : a.id = e.id <;> simp [ha]

/-- Witness for C10 at a concrete store: stopping task 1 for user 1 at time
9 succeeds and the frame conditions hold. -/
theorem stop_frame_effect_witness :
    (∃ e, singleRow (openEntries stopStore 1 1) = some e ∧
      closedStopEntry.id = e.id ∧ closedStopEntry.task_id = e.task_id ∧
      closedStopEntry.user_id = e.user_id ∧
      closedStopEntry.start_time = e.start_time ∧
      closedStopEntry.end_time = some 9) ∧
    stopStoreAfter.entries.map (fun x => (x.id, x.task_id, x.user_id, x.start_time)) =
      stopStore.entries.map (fun x => (x.id, x.task_id, x.user_id, x.start_time)) :=
  stop_frame_effect stopStore 1 1 9 closedStopEntry stopStoreAfter (by decide)

lemma attachDuration_start_time (nowMs : Int) (e : TimeEntry) :
    (attachDuration nowMs e).start_time = e.start_time := by
  cases h : e.end_time <;> simp [attachDuration, h]

lemma attachDuration_end_time (nowMs : Int) (e : TimeEntry) :
    (attachDuration nowMs e).end_time = e.end_time := by
  cases h : e.end_time <;> simp [attachDuration, h]

/-- C9: a successful listing of a task's time entries is ordered by
`start_time` descending (newest first), every open entry is exposed with
`duration_ms = now − start_time` rather than null, and every closed entry
with `duration_ms = end_time − start_time`. -/
theorem time_entries_listing (s : Store) (tid uid : Nat) (nowMs : Int)
    (l : List TimeEntryView)
    (h : fetchTimeEntries s tid uid nowMs = some l) :
    l.Pairwise (fun a b => b.start_time ≤ a.start_time) ∧
    (∀ v ∈ l, v.end_time = none → v.duration_ms = some (nowMs - v.start_time)) ∧
    (∀ v ∈ l, ∀ te, v.end_time = some te → v.duration_ms = some (te - v.start_time)) := by
  unfold fetchTimeEntries getTimeEntries at h
  cases hf : findOwnedTask s tid uid with
  | none =>
    rw [hf] at h
    simp at h
  | some t =>
    rw [hf] at h
    simp only [Option.map_some] at h
    have hl : l = (List.insertionSort byStartDesc
        (s.entries.filter (fun e => decide (e.task_id = tid ∧ e.user_id = uid)))).map
          (attachDuration nowMs) := by
      exact (Option.some.injEq _ _ ▸ h).symm
    subst hl
    refine ⟨?_, ?_, ?_⟩
    · have hsort := List.sorted_insertionSort byStartDesc
        (s.entries.filter (fun e => decide (e.task_id = tid ∧ e.user_id = uid)))
      refine List.Pairwise.map (attachDuration nowMs) ?_ hsort
      intro a b hab
      rw [attachDuration_start_time, attachDuration_start_time]
      exact hab
    · intro v hv hopen
      rcases List.mem_map.mp hv with ⟨e, _, rfl⟩
      rw [attachDuration_end_time] at hopen
      simp [attachDuration, hopen]
    · intro v hv te hclosed
      rcases List.mem_map.mp hv with ⟨e, _, rfl⟩
      rw [attachDuration_end_time] at hclosed
      simp [attachDuration, hclosed]

/-- Witness for C9 at a concrete store: one closed and one open entry; the
listing is newest-first and the open entry reports elapsed-so-far. -/
theorem time_entries_listing_witness :
    listedViews.Pairwise (fun a b => b.start_time ≤ a.start_time) ∧
    (∀ v ∈ listedViews, v.end_time = none →
      v.duration_ms = some (100 - v.start_time)) ∧
    (∀ v ∈ listedViews, ∀ te, v.end_time = some te →
      v.duration_ms = some (te - v.start_time)) :=
  time_entries_listing listStore 1 1 100 listedViews (by decide)

/-- C2: on a well-formed store (pairwise-distinct entry ids, at most one
open entry for the pair, and entries on the task owned by the task's owner),
`start` 404s iff the task is not owned by the caller, 400-conflicts iff the
task is owned and an entry for it is open, and otherwise inserts and returns
an entry with `start_time = now`, `end_time = null`; `stop` 404s iff no open
entry exists for the task/user pair, and otherwise sets `end_time = now` on
that entry and returns it. -/
theorem start_stop_contract (s : Store) (tid uid : Nat) (nowMs : Int)
    (hid : s.entries.Pairwise (fun a b => a.id ≠ b.id))
    (hopen : (openEntries s tid uid).length ≤ 1)
    (hcons : ∀ e ∈ s.entries, e.task_id = tid → e.end_time = none →
      ∀ t ∈ s.tasks, t.id = tid → t.user_id = uid → e.user_id = uid) :
    ((startTimeTracking s tid uid nowMs).1 = .notFound ↔
      ¬ ∃ t ∈ s.tasks, t.id = tid ∧ t.user_id = uid) ∧
    ((startTimeTracking s tid uid nowMs).1 = .conflict ↔
      (∃ t ∈ s.tasks, t.id = tid ∧ t.user_id = uid) ∧
      ∃ e ∈ s.entries, e.task_id = tid ∧ e.end_time = none) ∧
    ((∃ t ∈ s.tasks, t.id = tid ∧ t.user_id = uid) →
      (¬ ∃ e ∈ s.entries, e.task_id = tid ∧ e.end_time = none) →
      startTimeTracking s tid uid nowMs =
        (.ok { id := s.nextId, task_id := tid, user_id := uid,
               start_time := nowMs, end_time := none },
         { s with
           entries := s.entries ++
             [{ id := s.nextId, task_id := tid, user_id := uid,
                start_time := nowMs, end_time := none }]
           nextId := s.nextId + 1 })) ∧
    ((stopTimeTracking s tid uid nowMs).1 = .notFound ↔
      ¬ ∃ e ∈ s.entries, e.task_id = tid ∧ e.user_id = uid ∧ e.end_time = none) ∧
    ((∃ e ∈ s.entries, e.task_id = tid ∧ e.user_id = uid ∧ e.end_time = none) →
      ∃ e, e ∈ s.entries ∧ e.task_id = tid ∧ e.user_id = uid ∧ e.end_time = none ∧
        stopTimeTracking s tid uid nowMs =
          (.ok { e with end_time := some nowMs },
           { s with entries := closeEntryRows s.entries e.id nowMs })) := by
  have hstopNF : (stopTimeTracking s tid uid nowMs).1 = .notFound ↔
      ¬ ∃ e ∈ s.entries, e.task_id = tid ∧ e.user_id = uid ∧ e.end_time = none := by
    constructor
    · intro h
      rintro ⟨e, he, h1, h2, h3⟩
      have hmem : e ∈ openEntries s tid uid :=
        (mem_openEntries_iff s tid uid e).mpr ⟨he, h1, h2, h3⟩
      obtain ⟨x, hx⟩ :=
        openEntries_singleton s tid uid hopen (List.ne_nil_of_mem hmem)
      have hsr : singleRow (openEntries s tid uid) = some x := by
        rw [hx]
        rfl
      rw [stop_ok_of_singleRow s tid uid nowMs x hid hsr] at h
      simp at h
    · intro hnex
      have hnil : openEntries s tid uid = [] := by
        rw [openEntries_eq_nil_iff]
        intro e he hc
        exact hnex ⟨e, he, hc.1, hc.2.1, hc.2.2⟩
      simp [stopTimeTracking, hnil, singleRow]
  have hstopOK : (∃ e ∈ s.entries, e.task_id = tid ∧ e.user_id = uid ∧ e.end_time = none) →
      ∃ e, e ∈ s.entries ∧ e.task_id = tid ∧ e.user_id = uid ∧ e.end_time = none ∧
        stopTimeTracking s tid uid nowMs =
          (.ok { e with end_time := some nowMs },
           { s with entries := closeEntryRows s.entries e.id nowMs }) := by
    rintro ⟨e, he, h1, h2, h3⟩
    have hmem : e ∈ openEntries s tid uid :=
      (mem_openEntries_iff s tid uid e).mpr ⟨he, h1, h2, h3⟩
    obtain ⟨x, hx⟩ :=
      openEntries_singleton s tid uid hopen (List.ne_nil_of_mem hmem)
    have hsr : singleRow (openEntries s tid uid) = some x := by
      rw [hx]
      rfl
    have hxmem : x ∈ openEntries s tid uid := by
      rw [hx]
      simp
    obtain ⟨hxe, hx1, hx2, hx3⟩ := (mem_openEntries_iff s tid uid x).mp hxmem
    exact ⟨x, hxe, hx1, hx2, hx3, stop_ok_of_singleRow s tid uid nowMs x hid hsr⟩
  cases hf : findOwnedTask s tid uid with
  | none =>
    have hnoTask : ¬ ∃ t ∈ s.tasks, t.id = tid ∧ t.user_id = uid := by
      have hall := (findOwnedTask_eq_none_iff s tid uid).mp hf
      rintro ⟨t, ht, h1, h2⟩
      exact hall t ht ⟨h1, h2⟩
    have hstart : startTimeTracking s tid uid nowMs = (.notFound, s) := by
      unfold startTimeTracking startCheckPhase
      rw [hf]
    refine ⟨?_, ?_, ?_, hstopNF, hstopOK⟩
    · rw [hstart]
      exact iff_of_true rfl hnoTask
    · rw [hstart]
      refine iff_of_false (by simp) ?_
      rintro ⟨hex, _⟩
      exact hnoTask hex
    · intro htask _
      exact absurd htask hnoTask
  | some t =>
    have hfind : List.find? (fun t => decide (t.id = tid ∧ t.user_id = uid)) s.tasks
        = some t := by
      simpa [findOwnedTask] using hf
    have htp : t.id = tid ∧ t.user_id = uid := by
      have := List.find?_some hfind
      simpa using this
    have htmem : t ∈ s.tasks := List.mem_of_find?_eq_some hfind
    have htaskEx : ∃ t ∈ s.tasks, t.id = tid ∧ t.user_id = uid := ⟨t, htmem, htp⟩
    cases hsr : singleRow (openEntries s tid uid) with
    | some x =>
      have hstart : startTimeTracking s tid uid nowMs = (.conflict, s) := by
        unfold startTimeTracking startCheckPhase
        rw [hf, hsr]
      have hxmem : x ∈ openEntries s tid uid := by
        rw [(singleRow_eq_some_iff _ _).mp hsr]
        simp
      obtain ⟨hxe, hx1, hx2, hx3⟩ := (mem_openEntries_iff s tid uid x).mp hxmem
      refine ⟨?_, ?_, ?_, hstopNF, hstopOK⟩
      · rw [hstart]
        refine iff_of_false (by simp) ?_
        intro hn
        exact hn htaskEx
      · rw [hstart]
        exact iff_of_true rfl ⟨htaskEx, x, hxe, hx1, hx3⟩
      · intro _ hnoopen
        exact absurd ⟨x, hxe, hx1, hx3⟩ hnoopen
    | none =>
      have hnil : openEntries s tid uid = [] :=
        (singleRow_eq_none_iff_of_short _ hopen).mp hsr
      have hnoopenEx : ¬ ∃ e ∈ s.entries, e.task_id = tid ∧ e.end_time = none := by
        rintro ⟨e, he, h1, h3⟩
        have h2 : e.user_id = uid := hcons e he h1 h3 t htmem htp.1 htp.2
        have : e ∈ openEntries s tid uid :=
          (mem_openEntries_iff s tid uid e).mpr ⟨he, h1, h2, h3⟩
        rw [hnil] at this
        cases this
      have hstart : startTimeTracking s tid uid nowMs =
          (.ok { id := s.nextId, task_id := tid, user_id := uid,
                 start_time := nowMs, end_time := none },
           { s with
             entries := s.entries ++
               [{ id := s.nextId, task_id := tid, user_id := uid,
                  start_time := nowMs, end_time := none }]
             nextId := s.nextId + 1 }) := by
        unfold startTimeTracking startCheckPhase
        rw [hf, hsr]
        rfl
      refine ⟨?_, ?_, ?_, hstopNF, hstopOK⟩
      · rw [hstart]
        refine iff_of_false (by simp) ?_
        intro hn
        exact hn htaskEx
      · rw [hstart]
        refine iff_of_false (by simp) ?_
        rintro ⟨_, hex⟩
        exact hnoopenEx hex
      · intro _ _
        exact hstart

/-- Witness for C2 at a concrete store with one owned task and one open
entry: instantiates the 404-iff clause of `start`. -/
theorem start_stop_contract_witness :
    (startTimeTracking stopStore 1 1 9).1 = .notFound ↔
      ¬ ∃ t ∈ stopStore.tasks, t.id = 1 ∧ t.user_id = 1 :=
  (start_stop_contract stopStore 1 1 9 (by decide) (by decide) (by decide)).1

lemma closeEntryRows_append (l1 l2 : List TimeEntry) (eid : Nat) (nowMs : Int) :
    closeEntryRows (l1 ++ l2) eid nowMs =
      closeEntryRows l1 eid nowMs ++ closeEntryRows l2 eid nowMs := by
  unfold closeEntryRows
  rw [List.map_append]

/-- C3: on a store with no open entry for an owned task, `start` at `t1`
followed by `stop` at `t2` yields exactly one new entry, closed, with
`start_time = t1`, `end_time = t2`, and its derived duration is exactly
`end_time − start_time = t2 − t1`; no open entry remains. -/
theorem start_stop_round_trip (s : Store) (tid uid : Nat) (t1 t2 : Int)
    (hfresh : ∀ e ∈ s.entries, e.id ≠ s.nextId)
    (htask : ∃ t ∈ s.tasks, t.id = tid ∧ t.user_id = uid)
    (hnoopen : openEntries s tid uid = []) :
    ∃ e1 s1,
      startTimeTracking s tid uid t1 = (.ok e1, s1) ∧
      e1.start_time = t1 ∧ e1.end_time = none ∧
      stopTimeTracking s1 tid uid t2 =
        (.ok { e1 with end_time := some t2 },
         { s1 with entries := s.entries ++ [{ e1 with end_time := some t2 }] }) ∧
      entryDurationMs { e1 with end_time := some t2 } = t2 - t1 ∧
      openEntries
        { s1 with entries := s.entries ++ [{ e1 with end_time := some t2 }] }
        tid uid = [] := by
  obtain ⟨t, ht, htp1, htp2⟩ := htask
  have hfsome : (findOwnedTask s tid uid).isSome := by
    rw [findOwnedTask, List.find?_isSome]
    exact ⟨t, ht, by simp [htp1, htp2]⟩
  obtain ⟨t0, hf⟩ := Option.isSome_iff_exists.mp hfsome
  have hsr : singleRow (openEntries s tid uid) = none := by
    rw [hnoopen]
    rfl
  set e1 : TimeEntry := { id := s.nextId, task_id := tid, user_id := uid,
                          start_time := t1, end_time := none } with he1
  set s1 : Store := { s with
    entries := s.entries ++ [e1]
    nextId := s.nextId + 1 } with hs1
  have hentries1 : s1.entries = s.entries ++ [e1] := rfl
  have hopen1 : openEntries s1 tid uid = [e1] := by
    have h0 : openEntries s tid uid = [] := hnoopen
    unfold openEntries at h0 ⊢
    rw [hentries1, List.filter_append, h0]
    simp [he1]
  have hsr1 : singleRow (openEntries s1 tid uid) = some e1 := by
    rw [hopen1]
    rfl
  have hclose : closeEntryRows s1.entries e1.id t2 =
      s.entries ++ [{ e1 with end_time := some t2 }] := by
    rw [hentries1, closeEntryRows_append]
    have hid1 : e1.id = s.nextId := rfl
    rw [hid1, closeEntryRows_of_fresh s.entries s.nextId t2 hfresh]
    congr 1
    simp [closeEntryRows, he1]
  have hfil : (closeEntryRows s1.entries e1.id t2).filter
      (fun x => decide (x.id = e1.id)) = [{ e1 with end_time := some t2 }] := by
    rw [hclose, List.filter_append]
    have hA : s.entries.filter (fun x => decide (x.id = e1.id)) = [] := by
      rw [List.filter_eq_nil_iff]
      intro a ha
      simpa [he1] using hfresh a ha
    rw [hA]
    simp [he1]
  have hstop : stopTimeTracking s1 tid uid t2 =
      (.ok { e1 with end_time := some t2 },
       { s1 with entries := s.entries ++ [{ e1 with end_time := some t2 }] }) := by
    rw [hentries1] at hfil hclose
    simp only [stopTimeTracking, singleRow, hopen1, hfil, hclose]
    have hA : s.entries.filter (fun x => decide (x.id = s.nextId)) = [] := by
      rw [List.filter_eq_nil_iff]
      intro a ha
      simpa using hfresh a ha
    rw [List.filter_append, hA]
    simp
  refine ⟨e1, s1, ?_, rfl, rfl, hstop, ?_, ?_⟩
  · unfold startTimeTracking startCheckPhase
    rw [hf, hsr]
    rfl
  · simp [entryDurationMs, entryEndMs, he1]
  · have h0 : openEntries s tid uid = [] := hnoopen
    unfold openEntries at h0 ⊢
    rw [List.filter_append, h0]
    simp [he1]

/-- Witness for C3: the round trip on a concrete store with one owned task
and no entries, started at 10 and stopped at 20. -/
theorem start_stop_round_trip_witness :
    ∃ e1 s1,
      startTimeTracking raceStore 1 1 10 = (.ok e1, s1) ∧
      e1.start_time = 10 ∧ e1.end_time = none ∧
      stopTimeTracking s1 1 1 20 =
        (.ok { e1 with end_time := some 20 },
         { s1 with entries := raceStore.entries ++ [{ e1 with end_time := some 20 }] }) ∧
      entryDurationMs { e1 with end_time := some 20 } = 20 - 10 ∧
      openEntries
        { s1 with entries := raceStore.entries ++ [{ e1 with end_time := some 20 }] }
        1 1 = [] :=
  start_stop_round_trip raceStore 1 1 10 20 (by decide) (by decide) (by decide)

/-- C6: for a non-empty set of completed tasks, `current_streak` equals the
final running streak value exactly when the most recent distinct completion
date is at gap at most one day from now (today or yesterday), and is 0
otherwise. -/
theorem current_streak_gap_rule (tasks : List Task) (nowMs : Int)
    (h : completedOf tasks ≠ []) :
    ∃ m lastDay,
      getProductivityMetrics tasks nowMs = some m ∧
      (sortedDatesOf (completedOf tasks)).getLast? = some lastDay ∧
      m.current_streak =
        (if dayOfMs nowMs - lastDay ≤ 1
         then (streakWalk (sortedDatesOf (completedOf tasks))).2 else 0) ∧
      (m.current_streak = (streakWalk (sortedDatesOf (completedOf tasks))).2 ↔
        dayOfMs nowMs - lastDay ≤ 1) := by
  have hdates : sortedDatesOf (completedOf tasks) ≠ [] :=
    sortedDatesOf_ne_nil (completedOf tasks) h
  obtain ⟨lastDay, hlast⟩ : ∃ d, (sortedDatesOf (completedOf tasks)).getLast? = some d := by
    cases hl : (sortedDatesOf (completedOf tasks)).getLast? with
    | none => exact absurd (List.getLast?_eq_none_iff.mp hl) hdates
    | some d => exact ⟨d, rfl⟩
  have htemp : 1 ≤ (streakWalk (sortedDatesOf (completedOf tasks))).2 :=
    streakWalk_snd_pos _ hdates
  have hfd : (nowMs - lastDay * msPerDay).fdiv msPerDay = dayOfMs nowMs - lastDay := by
    rw [fdiv_sub_day]
    rfl
  cases hsw : streakWalk (sortedDatesOf (completedOf tasks)) with
  | mk lg tp =>
    rw [hsw] at htemp
    simp only at htemp
    have hm : getProductivityMetrics tasks nowMs =
        some { total_completed_tasks := (completedOf tasks).length,
               tasks_per_day := tasksPerDayOf (completedOf tasks),
               average_tasks_per_day :=
                 if 0 < (tasksPerDayOf (completedOf tasks)).length
                 then ((completedOf tasks).length : ℚ) /
                   ((tasksPerDayOf (completedOf tasks)).length : ℚ)
                 else 0,
               current_streak :=
                 if (nowMs - lastDay * msPerDay).fdiv msPerDay ≤ 1 then tp else 0,
               longest_streak := lg } := by
      simp only [getProductivityMetrics, hlast, hsw]
    refine ⟨_, lastDay, hm, hlast, ?_, ?_⟩
    · simp only [hsw, hfd]
    · simp only [hsw, hfd]
      by_cases hc : dayOfMs nowMs - lastDay ≤ 1
      · simp [hc]
      · simp only [hc, if_false]
        constructor
        · intro h0
          omega
        · intro h0
          exact h0.elim

/-- Witness for C6: one task completed at epoch day 0, now = 0; the last
date is today, so the current streak is the final running value 1. -/
theorem current_streak_gap_rule_witness :
    ∃ m lastDay,
      getProductivityMetrics [oneDayTask] 0 = some m ∧
      (sortedDatesOf (completedOf [oneDayTask])).getLast? = some lastDay ∧
      m.current_streak =
        (if dayOfMs 0 - lastDay ≤ 1
         then (streakWalk (sortedDatesOf (completedOf [oneDayTask]))).2 else 0) ∧
      (m.current_streak = (streakWalk (sortedDatesOf (completedOf [oneDayTask]))).2 ↔
        dayOfMs 0 - lastDay ≤ 1) :=
  current_streak_gap_rule [oneDayTask] 0 (by decide)

end TimeTrack